import Mathlib

/-!
Verification development for the NetworkEmulator repository.

The definitions below are a shallow embedding of the C++ sources:
* `MacUtil.macToString`, `MacUtil.stringToMac`, `MacUtil.calculateChecksum`
  from `src/src/EthernetFrame.cpp`;
* `NetworkMedium` (per-node inbox map) from `src/unnamed/part_000`;
* the `EthernetFrame` record from `src/src/EthernetFrame.h` (whose
  `serialize`/`deserialize` bodies are not present in the sources and are
  therefore modelled from the spec).

Machine bytes are modelled as `Nat` with explicit `% 2 ^ w` where overflow
matters; `char` extraction from a `std::stringstream` is modelled by explicit
functions over `List Char` together with an `eof` flag for the stream's
eofbit.
-/

/-- Whitespace recognized by formatted stream extraction (`std::isspace` in the
default locale): space, tab, newline, vertical tab, form feed, carriage
return. -/
def isWs (c : Char) : Bool :=
  c == ' ' || c == '\t' || c == '\n' || c == Char.ofNat 11 || c == Char.ofNat 12 || c == '\r'

/-- Hexadecimal digit recognized by `std::num_get` in hex mode
(case-insensitive). -/
def isHexDig (c : Char) : Bool :=
  (('0' ≤ c) && (c ≤ '9')) || (('a' ≤ c) && (c ≤ 'f')) || (('A' ≤ c) && (c ≤ 'F'))

/-- Numeric value of a hexadecimal digit character. -/
def hexVal (c : Char) : Nat :=
  if ('0' ≤ c) && (c ≤ '9') then c.toNat - '0'.toNat
  else if ('a' ≤ c) && (c ≤ 'f') then c.toNat - 'a'.toNat + 10
  else c.toNat - 'A'.toNat + 10

/-- `MAC_ADDRESS_LENGTH` from `src/src/EthernetFrame.h`. -/
def MAC_ADDRESS_LENGTH : Nat := 6

namespace MacUtil

/-- Embedding of `ss >> byteVal` with `ss >> std::hex` set
(`src/src/EthernetFrame.cpp`, `MacUtil::stringToMac`): skip leading
whitespace, read a maximal run of hexadecimal digits and accumulate their
value; fail (failbit, `none`) when no digit is available.  The returned `Bool`
is the stream's eofbit: set exactly when the run of digits was stopped by the
end of the input.  A stream whose eofbit is already set refuses further
extraction.  The inputs under study contain no sign and no `0x` base prefix,
which is the fragment of `std::num_get` modelled here. -/
def readHexUInt (cs : List Char) (eof : Bool) : Option (Nat × List Char × Bool) :=
  if eof then none
  else
    let cs1 := cs.dropWhile isWs
    let ds := cs1.takeWhile isHexDig
    let rest := cs1.dropWhile isHexDig
    if ds.isEmpty then none
    else some (ds.foldl (fun a c => 16 * a + hexVal c) 0, rest, rest.isEmpty)

/-- Embedding of `ss >> someChar` (`src/src/EthernetFrame.cpp`,
`MacUtil::stringToMac`): skip leading whitespace and extract one character;
fail (`none`) when none is available or the eofbit is already set.  Extracting
a single character never probes past it, so the eofbit is clear on success. -/
def readChTok (cs : List Char) (eof : Bool) : Option (Char × List Char × Bool) :=
  if eof then none
  else
    match cs.dropWhile isWs with
    | [] => none
    | c :: rest => some (c, rest, false)

/-- Embedding of the parsing loop of `MacUtil::stringToMac`
(`src/src/EthernetFrame.cpp` lines 77-111): read `n` hex byte groups, with a
colon separator required between consecutive groups; fail on a read failure, a
value above 255, or a wrong separator.  Returns the parsed values together
with the remaining input and the eofbit. -/
def parseGroups : Nat → List Char → Bool → Option (List Nat × List Char × Bool)
  | 0, cs, eof => some ([], cs, eof)
  | Nat.succ n, cs, eof =>
    match readHexUInt cs eof with
    | none => none
    | some (v, cs1, eof1) =>
      if 255 < v then none
      else if n = 0 then
        match parseGroups n cs1 eof1 with
        | none => none
        | some (vs, cs2, eof2) => some (v :: vs, cs2, eof2)
      else
        match readChTok cs1 eof1 with
        | none => none
        | some (c, cs2, eof2) =>
          if c = ':' then
            match parseGroups n cs2 eof2 with
            | none => none
            | some (vs, cs3, eof3) => some (v :: vs, cs3, eof3)
          else none

/-- Embedding of `MacUtil::stringToMac` (`src/src/EthernetFrame.cpp` lines
70-127).  A `MacAddress` is modelled as a `List Nat` of its 6 byte values;
every error path returns the all-zero address, exactly as in the source.
After the six groups, the final extra-character check runs only when the
stream is still `good()` (eofbit clear): a successful extraction of one more
character is an error, a failed one (only whitespace left) is not. -/
def stringToMac (macStr : String) : List Nat :=
  match parseGroups MAC_ADDRESS_LENGTH macStr.data false with
  | none => List.replicate 6 0
  | some (vals, cs, eof) =>
    if eof then vals
    else
      match readChTok cs eof with
      | some _ => List.replicate 6 0
      | none => vals

/-- Uppercase hexadecimal digits as printed by `std::hex << std::uppercase`. -/
def hexOut (n : Nat) : List Char := (Nat.toDigits 16 n).map Char.toUpper

/-- One byte printed by `ss << std::setw(2) << static_cast<int>(mac[i])` with
`std::hex`, `std::uppercase` and `std::setfill` of the zero digit sticky
(`src/src/EthernetFrame.cpp`, `MacUtil::macToString`): the hex digits of the
value, left padded with the zero digit to a minimum width of 2. -/
def byteHex (b : Nat) : List Char :=
  List.replicate (2 - (hexOut b).length) '0' ++ hexOut b

/-- The character sequence built by the loop of `MacUtil::macToString`: each
byte in hex, with a colon after every byte except the last. -/
def macChars : List Nat → List Char
  | [] => []
  | [b] => byteHex b
  | b :: rest => byteHex b ++ ':' :: macChars rest

/-- Embedding of `MacUtil::macToString` (`src/src/EthernetFrame.cpp` lines
33-57). -/
def macToString (mac : List Nat) : String := String.mk (macChars mac)

/-- Embedding of `MacUtil::calculateChecksum` (`src/src/EthernetFrame.cpp`
lines 138-151): bytes are summed into a `uint16_t` accumulator, so every
addition wraps modulo 2^16 = 65536. -/
def calculateChecksum (data : List Nat) : Nat :=
  data.foldl (fun sum byte => (sum + byte) % 65536) 0

end MacUtil

/-- Uppercase hexadecimal digit, as required by the spec's address string
format `XX:XX:XX:XX:XX:XX`. -/
def isUpperHexDig (c : Char) : Bool :=
  (('0' ≤ c) && (c ≤ '9')) || (('A' ≤ c) && (c ≤ 'F'))

/-- Groups separated by single colons, with no leading or trailing colon:
the shape the spec prescribes for an encoded address string. -/
def colonJoined : List (List Char) → List Char
  | [] => []
  | [g] => g
  | g :: rest => g ++ ':' :: colonJoined rest

set_option maxRecDepth 4000

/-- Every byte value prints as exactly two uppercase hexadecimal digits, each
a hex digit and not whitespace, and parsing those two digits back recovers the
byte. -/
theorem byteHex_spec : ∀ b : Nat, b < 256 →
    (MacUtil.byteHex b).length = 2 ∧
    (∀ c ∈ MacUtil.byteHex b,
      isHexDig c = true ∧ isWs c = false ∧ isUpperHexDig c = true) ∧
    (MacUtil.byteHex b).foldl (fun a c => 16 * a + hexVal c) 0 = b := by decide

/-- `takeWhile` passes over a prefix whose elements all satisfy the
predicate. -/
theorem takeWhile_append_all {α : Type} (p : α → Bool) :
    ∀ (l r : List α), (∀ c ∈ l, p c = true) →
      (l ++ r).takeWhile p = l ++ r.takeWhile p := by
  intro l
  induction l with
  | nil => simp
  | cons a t ih =>
    intro r h
    have ha : p a = true := h a (List.mem_cons_self a t)
    simp [List.takeWhile_cons, ha,
      ih r (fun c hc => h c (List.mem_cons_of_mem a hc))]

/-- `dropWhile` drops a prefix whose elements all satisfy the predicate. -/
theorem dropWhile_append_all {α : Type} (p : α → Bool) :
    ∀ (l r : List α), (∀ c ∈ l, p c = true) →
      (l ++ r).dropWhile p = r.dropWhile p := by
  intro l
  induction l with
  | nil => simp
  | cons a t ih =>
    intro r h
    have ha : p a = true := h a (List.mem_cons_self a t)
    simp [List.dropWhile_cons, ha,
      ih r (fun c hc => h c (List.mem_cons_of_mem a hc))]

/-- Reading a hex group from an encoded byte followed by a colon yields the
byte, stops at the colon, and leaves the eofbit clear. -/
theorem readHexUInt_byteHex_colon (b : Nat) (hb : b < 256) (rest : List Char) :
    MacUtil.readHexUInt (MacUtil.byteHex b ++ ':' :: rest) false =
      some (b, ':' :: rest, false) := by
  obtain ⟨hlen, hmem, hfold⟩ := byteHex_spec b hb
  obtain ⟨c1, c2, hbh⟩ := List.length_eq_two.mp hlen
  rw [hbh] at hmem hfold
  have h1 := hmem c1 (by simp)
  have h2 := hmem c2 (by simp)
  rw [hbh]
  have hcolon : isHexDig ':' = false := by decide
  have hfold2 : 16 * hexVal c1 + hexVal c2 = b := by
    simpa using hfold
  simp [MacUtil.readHexUInt, List.dropWhile_cons, List.takeWhile_cons,
    h1.1, h1.2.1, h2.1, hcolon, hfold2]

/-- Reading a hex group from an encoded byte at the end of the input yields
the byte, consumes everything, and sets the eofbit. -/
theorem readHexUInt_byteHex_end (b : Nat) (hb : b < 256) :
    MacUtil.readHexUInt (MacUtil.byteHex b) false = some (b, [], true) := by
  obtain ⟨hlen, hmem, hfold⟩ := byteHex_spec b hb
  obtain ⟨c1, c2, hbh⟩ := List.length_eq_two.mp hlen
  rw [hbh] at hmem hfold
  have h1 := hmem c1 (by simp)
  have h2 := hmem c2 (by simp)
  rw [hbh]
  have hfold2 : 16 * hexVal c1 + hexVal c2 = b := by
    simpa using hfold
  simp [MacUtil.readHexUInt, List.dropWhile_cons, List.takeWhile_cons,
    h1.1, h1.2.1, h2.1, hfold2]

/-- Reading one character off a colon-headed stream returns the colon with the
eofbit clear. -/
theorem readChTok_colon (rest : List Char) :
    MacUtil.readChTok (':' :: rest) false = some (':', rest, false) := by
  simp [MacUtil.readChTok, List.dropWhile_cons,
    show isWs ':' = false from by decide]

/-- Parsing the encoding of a nonempty byte list with as many groups as bytes
succeeds, recovers the bytes, consumes the whole input and ends with the
eofbit set. -/
theorem parseGroups_macChars :
    ∀ l : List Nat, l ≠ [] → (∀ b ∈ l, b < 256) →
      MacUtil.parseGroups l.length (MacUtil.macChars l) false =
        some (l, [], true) := by
  intro l
  induction l with
  | nil => intro h; exact absurd rfl h
  | cons b rest ih =>
    intro _ hall
    have hb : b < 256 := hall b (List.mem_cons_self b rest)
    have hnle : ¬ (255 < b) := by omega
    cases rest with
    | nil =>
      simp [MacUtil.parseGroups, MacUtil.macChars,
        readHexUInt_byteHex_end b hb, hnle]
    | cons r1 r2 =>
      have hrest : ∀ x ∈ r1 :: r2, x < 256 :=
        fun x hx => hall x (List.mem_cons_of_mem b hx)
      have ihr := ih (List.cons_ne_nil r1 r2) hrest
      show MacUtil.parseGroups ((r1 :: r2).length + 1)
        (MacUtil.macChars (b :: r1 :: r2)) false = _
      rw [show MacUtil.macChars (b :: r1 :: r2) =
          MacUtil.byteHex b ++ ':' :: MacUtil.macChars (r1 :: r2) from rfl]
      have ihr2 := ihr
      simp only [MacUtil.parseGroups, List.length_cons] at ihr2 ⊢
      simp [readHexUInt_byteHex_colon b hb, readChTok_colon, hnle] at ihr2 ⊢
      rw [ihr2]

/-- Claim C1: decoding an encoded 6-byte physical address round-trips:
`MacUtil::stringToMac (MacUtil::macToString a) = a`. -/
theorem stringToMac_macToString (mac : List Nat) (h6 : mac.length = 6)
    (hb : ∀ b ∈ mac, b < 256) :
    MacUtil.stringToMac (MacUtil.macToString mac) = mac := by
  have hne : mac ≠ [] := by
    intro h; rw [h] at h6; simp at h6
  have hparse := parseGroups_macChars mac hne hb
  rw [h6] at hparse
  unfold MacUtil.stringToMac
  rw [show (MacUtil.macToString mac).data = MacUtil.macChars mac from rfl,
    show MAC_ADDRESS_LENGTH = 6 from rfl, hparse]
  simp

/-- Witness for claim C1 at a concrete address. -/
theorem stringToMac_macToString_witness :
    ([0, 17, 34, 170, 187, 204] : List Nat).length = 6 ∧
    (∀ b ∈ ([0, 17, 34, 170, 187, 204] : List Nat), b < 256) ∧
    MacUtil.stringToMac (MacUtil.macToString [0, 17, 34, 170, 187, 204]) =
      [0, 17, 34, 170, 187, 204] :=
  ⟨by decide, by decide,
    stringToMac_macToString [0, 17, 34, 170, 187, 204] (by decide) (by decide)⟩

/-- The character sequence of an encoded address is the byte groups joined by
single colons. -/
theorem macChars_eq_colonJoined :
    ∀ l : List Nat, MacUtil.macChars l = colonJoined (l.map MacUtil.byteHex) := by
  intro l
  induction l with
  | nil => rfl
  | cons b rest ih =>
    cases rest with
    | nil => rfl
    | cons r1 r2 =>
      show MacUtil.byteHex b ++ ':' :: MacUtil.macChars (r1 :: r2) =
        MacUtil.byteHex b ++ ':' :: colonJoined ((r1 :: r2).map MacUtil.byteHex)
      rw [ih]

/-- Claim C5: `MacUtil::macToString` produces exactly 6 two-digit uppercase
hexadecimal groups separated by single colons (hence no leading or trailing
colon), and on the two example addresses produces the expected strings.  The
function is total by construction. -/
theorem macToString_format (mac : List Nat) (h6 : mac.length = 6)
    (hb : ∀ b ∈ mac, b < 256) :
    (∃ groups : List (List Char),
      (MacUtil.macToString mac).data = colonJoined groups ∧
      groups.length = 6 ∧
      ∀ g ∈ groups, g.length = 2 ∧ ∀ c ∈ g, isUpperHexDig c = true) ∧
    MacUtil.macToString [0, 0, 0, 0, 0, 0] = "00:00:00:00:00:00" ∧
    MacUtil.macToString [0xAA, 0xBB, 0xCC, 0xDD, 0xEE, 0xFF] =
      "AA:BB:CC:DD:EE:FF" := by
  refine ⟨⟨mac.map MacUtil.byteHex, ?_, ?_, ?_⟩, by decide, by decide⟩
  · exact macChars_eq_colonJoined mac
  · simp [h6]
  · intro g hg
    obtain ⟨b, hbmem, rfl⟩ := List.mem_map.mp hg
    have hs := byteHex_spec b (hb b hbmem)
    exact ⟨hs.1, fun c hc => (hs.2.1 c hc).2.2⟩

/-- Witness for claim C5 at a concrete address. -/
theorem macToString_format_witness :
    (∃ groups : List (List Char),
      (MacUtil.macToString [0, 17, 34, 170, 187, 204]).data =
        colonJoined groups ∧
      groups.length = 6 ∧
      ∀ g ∈ groups, g.length = 2 ∧ ∀ c ∈ g, isUpperHexDig c = true) ∧
    MacUtil.macToString [0, 0, 0, 0, 0, 0] = "00:00:00:00:00:00" ∧
    MacUtil.macToString [0xAA, 0xBB, 0xCC, 0xDD, 0xEE, 0xFF] =
      "AA:BB:CC:DD:EE:FF" :=
  macToString_format [0, 17, 34, 170, 187, 204] (by decide) (by decide)

/-- Claim C3: `MacUtil::stringToMac` returns the all-zero address on each of
the five malformed inputs named by the spec: too few groups, too many groups,
a non-hex group, a wrong separator, and an out-of-range byte value. -/
theorem stringToMac_rejects_malformed :
    MacUtil.stringToMac ("00:11:22:33:44") = List.replicate 6 0 ∧
    MacUtil.stringToMac ("00:11:22:33:44:55:66") = List.replicate 6 0 ∧
    MacUtil.stringToMac ("00:11:22:XX:YY:ZZ") = List.replicate 6 0 ∧
    MacUtil.stringToMac ("00-11-22-33-44-55") = List.replicate 6 0 ∧
    MacUtil.stringToMac ("00:11:22:AA:BB:100") = List.replicate 6 0 := by
  decide

/-- Claim C8: `MacUtil::stringToMac` accepts some inputs outside the strict
two-digit format: one-digit groups parse, and whitespace before a group is
skipped, each returning the corresponding non-zero address rather than the
all-zero sentinel. -/
theorem stringToMac_lenient :
    MacUtil.stringToMac ("0:1:2:3:4:5") = [0, 1, 2, 3, 4, 5] ∧
    ([0, 1, 2, 3, 4, 5] : List Nat) ≠ List.replicate 6 0 ∧
    MacUtil.stringToMac ("00:11:22:33:44: 55") = [0, 17, 34, 51, 68, 85] ∧
    ([0, 17, 34, 51, 68, 85] : List Nat) ≠ List.replicate 6 0 := by
  decide

/-- The accumulator of `calculateChecksum` computes the plain sum reduced
modulo 65536. -/
theorem calculateChecksum_foldl (l : List Nat) :
    ∀ s : Nat, s < 65536 →
      l.foldl (fun sum byte => (sum + byte) % 65536) s = (s + l.sum) % 65536 := by
  induction l with
  | nil => intro s hs; simp [Nat.mod_eq_of_lt hs]
  | cons b t ih =>
    intro s hs
    have h1 : (s + b) % 65536 < 65536 := Nat.mod_lt _ (by omega)
    rw [List.foldl_cons, ih _ h1, List.sum_cons, Nat.mod_add_mod]
    omega

/-- `calculateChecksum` equals the byte sum modulo 65536. -/
theorem calculateChecksum_eq_sum (l : List Nat) :
    MacUtil.calculateChecksum l = l.sum % 65536 := by
  have h := calculateChecksum_foldl l 0 (by omega)
  simpa [MacUtil.calculateChecksum] using h

/-- The checksum is always below 65536 (it lives in a `uint16_t`). -/
theorem calculateChecksum_lt (l : List Nat) : MacUtil.calculateChecksum l < 65536 := by
  rw [calculateChecksum_eq_sum]
  exact Nat.mod_lt _ (by omega)

/-- Claim C4: for every byte sequence, `MacUtil::calculateChecksum` returns the
sum of the bytes' unsigned values reduced modulo 65536; in particular it
returns 0 on the empty sequence, 65 on `[0x41]`, 500 on
`[0x48, 0x65, 0x6C, 0x6C, 0x6F]`, and 256 on `[0xFF, 0x01]`. -/
theorem calculateChecksum_spec :
    (∀ l : List Nat, MacUtil.calculateChecksum l = l.sum % 65536) ∧
    MacUtil.calculateChecksum [] = 0 ∧
    MacUtil.calculateChecksum [0x41] = 65 ∧
    MacUtil.calculateChecksum [0x48, 0x65, 0x6C, 0x6C, 0x6F] = 500 ∧
    MacUtil.calculateChecksum [0xFF, 0x01] = 256 :=
  ⟨calculateChecksum_eq_sum, by decide, by decide, by decide, by decide⟩

/-- Claim C6: `MacUtil::calculateChecksum` is order-insensitive: permuting the
byte sequence does not change the checksum. -/
theorem calculateChecksum_perm (l1 l2 : List Nat) (h : l1.Perm l2) :
    MacUtil.calculateChecksum l1 = MacUtil.calculateChecksum l2 := by
  rw [calculateChecksum_eq_sum, calculateChecksum_eq_sum, h.sum_eq]

/-- Witness for claim C6 at a concrete permutation. -/
theorem calculateChecksum_perm_witness :
    ([1, 2, 3] : List Nat).Perm [3, 2, 1] ∧
      MacUtil.calculateChecksum [1, 2, 3] = MacUtil.calculateChecksum [3, 2, 1] :=
  ⟨by decide, calculateChecksum_perm [1, 2, 3] [3, 2, 1] (by decide)⟩

/-- A `RawPacket`'s byte contents (`std::vector<char> data` in
`RawPacket.h`); the default-constructed packet is the empty sequence. -/
def RawPacket : Type := List Nat

/-- Embedding of the `NetworkMedium` of `src/unnamed/part_000`: the
`std::map<int, std::queue<RawPacket>> nodeInboxes` is modelled as a partial
map from node identifiers to packet queues (front of the list = front of the
queue); `none` means the node is not registered (`count == 0`). -/
structure NetworkMedium where
  nodeInboxes : Int → Option (List RawPacket)

namespace NetworkMedium

/-- Embedding of `NetworkMedium::registerNode` (`src/unnamed/part_000` lines
8-11): `nodeInboxes[nodeID]` default-constructs an empty queue when the key is
absent and leaves an existing queue untouched. -/
def registerNode (m : NetworkMedium) (nodeID : Int) : NetworkMedium :=
  ⟨fun k => if k = nodeID then some ((m.nodeInboxes nodeID).getD []) else m.nodeInboxes k⟩

/-- Embedding of `NetworkMedium::sendPacket` (`src/unnamed/part_000` lines
13-22): when the destination is not registered the function logs and returns
without touching any queue; otherwise the packet is pushed to the back of the
destination's queue.  The source node identifier is used only for logging. -/
def sendPacket (m : NetworkMedium) (_sourceNodeID destNodeID : Int)
    (packet : RawPacket) : NetworkMedium :=
  match m.nodeInboxes destNodeID with
  | none => m
  | some q =>
    ⟨fun k => if k = destNodeID then some (q ++ [packet]) else m.nodeInboxes k⟩

/-- Embedding of `NetworkMedium::receivePacket` (`src/unnamed/part_000` lines
24-39): an unregistered node or an empty inbox yields a default-constructed
(empty) packet and leaves the medium unchanged; otherwise the front packet is
popped and returned. -/
def receivePacket (m : NetworkMedium) (nodeID : Int) :
    RawPacket × NetworkMedium :=
  match m.nodeInboxes nodeID with
  | none => (([] : List Nat), m)
  | some [] => (([] : List Nat), m)
  | some (p :: rest) =>
    (p, ⟨fun k => if k = nodeID then some rest else m.nodeInboxes k⟩)

/-- Embedding of `NetworkMedium::hasPackets` (`src/unnamed/part_000` lines
41-47). -/
def hasPackets (m : NetworkMedium) (nodeID : Int) : Bool :=
  match m.nodeInboxes nodeID with
  | some q => !q.isEmpty
  | none => false

end NetworkMedium

/-- A medium with no registered node, for concrete witnesses. -/
def emptyMedium : NetworkMedium := ⟨fun _ => none⟩

/-- A medium whose only registered node 1 has one queued one-byte packet, for
concrete witnesses. -/
def mediumOne : NetworkMedium :=
  ⟨fun k => if k = 1 then some [([5] : List Nat)] else none⟩

/-- Claim C7: whenever a node has no pending packets - including when it was
never registered - `NetworkMedium::receivePacket` returns the empty packet. -/
theorem receivePacket_no_pending (m : NetworkMedium) (nodeID : Int)
    (h : m.hasPackets nodeID = false) :
    (m.receivePacket nodeID).1 = ([] : List Nat) := by
  unfold NetworkMedium.receivePacket
  unfold NetworkMedium.hasPackets at h
  match hm : m.nodeInboxes nodeID with
  | none => simp [hm]
  | some [] => simp [hm]
  | some (p :: rest) => rw [hm] at h; simp at h

/-- Witness for claim C7: an unregistered node on the empty medium and a
registered node with an empty inbox both receive the empty packet. -/
theorem receivePacket_no_pending_witness :
    emptyMedium.hasPackets 7 = false ∧
    (emptyMedium.receivePacket 7).1 = ([] : List Nat) :=
  ⟨rfl, receivePacket_no_pending emptyMedium 7 rfl⟩

/-- Claim C9: `NetworkMedium::sendPacket` to an unregistered destination drops
the packet and leaves every node's inbox exactly as it was. -/
theorem sendPacket_unregistered (m : NetworkMedium)
    (sourceNodeID destNodeID : Int) (packet : RawPacket)
    (h : m.nodeInboxes destNodeID = none) :
    ∀ k : Int, (m.sendPacket sourceNodeID destNodeID packet).nodeInboxes k =
      m.nodeInboxes k := by
  intro k
  unfold NetworkMedium.sendPacket
  rw [h]

/-- Witness for claim C9 at a concrete medium and packet. -/
theorem sendPacket_unregistered_witness :
    mediumOne.nodeInboxes 3 = none ∧
    ∀ k : Int, (mediumOne.sendPacket 1 3 ([9] : List Nat)).nodeInboxes k =
      mediumOne.nodeInboxes k :=
  ⟨rfl, sendPacket_unregistered mediumOne 1 3 ([9] : List Nat) rfl⟩

/-- Claim C10: `NetworkMedium::registerNode` on an already registered node is
idempotent: that node's inbox keeps exactly its queued packets and every other
node's inbox is untouched. -/
theorem registerNode_idempotent (m : NetworkMedium) (nodeID : Int)
    (q : List RawPacket) (h : m.nodeInboxes nodeID = some q) :
    (m.registerNode nodeID).nodeInboxes nodeID = some q ∧
    ∀ k : Int, k ≠ nodeID →
      (m.registerNode nodeID).nodeInboxes k = m.nodeInboxes k := by
  constructor
  · unfold NetworkMedium.registerNode
    simp [h]
  · intro k hk
    unfold NetworkMedium.registerNode
    simp [hk]

/-- Witness for claim C10 at a concrete medium with a queued packet. -/
theorem registerNode_idempotent_witness :
    mediumOne.nodeInboxes 1 = some [([5] : List Nat)] ∧
    ((mediumOne.registerNode 1).nodeInboxes 1 = some [([5] : List Nat)] ∧
      ∀ k : Int, k ≠ 1 →
        (mediumOne.registerNode 1).nodeInboxes k = mediumOne.nodeInboxes k) :=
  ⟨rfl, registerNode_idempotent mediumOne 1 [([5] : List Nat)] rfl⟩

/-- The `EthernetFrame` record of `src/src/EthernetFrame.h` (lines 33-49):
two 6-byte MAC addresses, a 16-bit payload length, the payload bytes, and a
16-bit checksum.  Addresses and payload are modelled as lists of byte
values. -/
structure EthernetFrame where
  destMac : List Nat
  srcMac : List Nat
  payloadLength : Nat
  payload : List Nat
  checksum : Nat

/-- Modelled from the spec: the payload-carrying constructor
`EthernetFrame(dest, src, data_payload)` is declared in
`src/src/EthernetFrame.h` but its body is not among the repository sources.
Per spec section 4.3 it stores both addresses, sets `payloadLength` to the
payload's byte count and `checksum` to the additive checksum of the payload
bytes; the text payload is modelled directly by its byte sequence. -/
def mkEthernetFrame (dest src data_payload : List Nat) : EthernetFrame :=
  ⟨dest, src, data_payload.length, data_payload,
    MacUtil.calculateChecksum data_payload⟩

namespace EthernetFrame

/-- Modelled from the spec: `EthernetFrame::serialize` is declared in
`src/src/EthernetFrame.h` but its body is not among the repository sources.
Per spec sections 4.3 and 6 it emits, in order: 6 bytes destination address,
6 bytes source address, the 2-byte payload length, `payloadLength` bytes of
payload, and the 2-byte checksum; the 2-byte fields use a fixed byte order,
chosen big-endian here. -/
def serialize (f : EthernetFrame) : List Nat :=
  f.destMac ++ f.srcMac ++
    [f.payloadLength / 256 % 256, f.payloadLength % 256] ++
    f.payload ++ [f.checksum / 256 % 256, f.checksum % 256]

/-- Modelled from the spec: `EthernetFrame::deserialize` is declared in
`src/src/EthernetFrame.h` but its body is not among the repository sources.
Per spec sections 4.3 and 6 it reads the fields back in the same order and
widths, trusting the encoded length field to delimit the payload region.  On
the well-formed buffers produced by `serialize` every read is in range;
out-of-range positions default to 0. -/
def deserialize (raw_data : List Nat) : EthernetFrame :=
  let dest := raw_data.take 6
  let r1 := raw_data.drop 6
  let src := r1.take 6
  let r2 := r1.drop 6
  let len := 256 * r2.getD 0 0 + r2.getD 1 0
  let r3 := r2.drop 2
  let payload := r3.take len
  let r4 := r3.drop len
  ⟨dest, src, len, payload, 256 * r4.getD 0 0 + r4.getD 1 0⟩

end EthernetFrame

/-- Claim C2: deserializing a serialized frame built from two 6-byte addresses
and a payload reproduces the frame - identical destination address, source
address, payloadLength, payload bytes, and checksum (record equality is
equality of all five fields). -/
theorem deserialize_serialize (dest src data_payload : List Nat)
    (hd : dest.length = 6) (hs : src.length = 6)
    (hp : data_payload.length < 65536) :
    EthernetFrame.deserialize
        (EthernetFrame.serialize (mkEthernetFrame dest src data_payload)) =
      mkEthernetFrame dest src data_payload := by
  have hck := calculateChecksum_lt data_payload
  have hL : 256 * (data_payload.length / 256 % 256) +
      data_payload.length % 256 = data_payload.length := by
    rw [Nat.mod_eq_of_lt (by omega : data_payload.length / 256 < 256)]
    omega
  have hC : 256 * (MacUtil.calculateChecksum data_payload / 256 % 256) +
      MacUtil.calculateChecksum data_payload % 256 =
        MacUtil.calculateChecksum data_payload := by
    rw [Nat.mod_eq_of_lt
      (by omega : MacUtil.calculateChecksum data_payload / 256 < 256)]
    omega
  unfold EthernetFrame.deserialize EthernetFrame.serialize mkEthernetFrame
  simp only [List.append_assoc, List.cons_append, List.nil_append,
    List.take_left' hd, List.drop_left' hd, List.take_left' hs,
    List.drop_left' hs, List.getD_cons_zero, List.getD_cons_succ,
    List.drop_succ_cons, List.drop_zero, hL, hC, List.take_left,
    List.drop_left]

/-- Witness for claim C2 at the spec's end-to-end example: destination
`AA:BB:CC:DD:EE:FF`, source `11:22:33:44:55:66`, payload the bytes of
"Hello". -/
theorem deserialize_serialize_witness :
    ([170, 187, 204, 221, 238, 255] : List Nat).length = 6 ∧
    ([17, 34, 51, 68, 85, 102] : List Nat).length = 6 ∧
    ([72, 101, 108, 108, 111] : List Nat).length < 65536 ∧
    EthernetFrame.deserialize
        (EthernetFrame.serialize
          (mkEthernetFrame ([170, 187, 204, 221, 238, 255])
            ([17, 34, 51, 68, 85, 102]) ([72, 101, 108, 108, 111]))) =
      mkEthernetFrame ([170, 187, 204, 221, 238, 255])
        ([17, 34, 51, 68, 85, 102]) ([72, 101, 108, 108, 111]) :=
  ⟨by decide, by decide, by decide,
    deserialize_serialize ([170, 187, 204, 221, 238, 255])
      ([17, 34, 51, 68, 85, 102]) ([72, 101, 108, 108, 111])
      (by decide) (by decide) (by decide)⟩
